import Mathlib

/-!
Shallow embedding of the playlists application: the `PlaylistSet`/`Playlist`
models with their change-notification slots, the `History` undo stack, and the
sequential `Player`, together with theorems about their behaviour.

Tracks and playlist objects are referenced by opaque numeric identities
(JavaScript object identity).  Model mutators return the successor state
together with a trace of the externally observable actions performed during
the call (state mutation, notification-callback invocations, the call to
`History.log`, the persistence save), in the order they happen in the source.
-/

/-- First index of `x` in `xs`, or `-1` when `x` is absent
(JavaScript `Array.prototype.indexOf`). -/
def jsIndexOf (xs : List Nat) (x : Nat) : Int :=
  match xs with
  | [] => -1
  | y :: ys =>
    if y = x then 0
    else
      let r := jsIndexOf ys x
      if r < 0 then -1 else r + 1

/-- Start position used by JavaScript `Array.prototype.splice` for a relative
index `i` on an array of length `n`: negative indices count from the end, and
the result is clamped into `[0, n]`. -/
def jsSpliceStart (n : Nat) (i : Int) : Nat :=
  if i < 0 then (i + n).toNat else min i.toNat n

/-- Effect of `xs.splice(i, 1)` on the array: the single element at the
clamped start position is removed (nothing is removed when that position is
past the end). -/
def jsSpliceRemove1 {α : Type} (xs : List α) (i : Int) : List α :=
  xs.eraseIdx (jsSpliceStart xs.length i)

/-- Effect of `xs.splice(i, 0, x)` on the array: `x` is inserted at the
clamped start position. -/
def jsSpliceInsert {α : Type} (xs : List α) (i : Int) (x : α) : List α :=
  xs.insertIdx (jsSpliceStart xs.length i) x

/-- Notification slots installed on a `Playlist`; `true` means a callback is
registered (each slot holds at most one callback). -/
structure Slots where
  onTitleChange : Bool
  onDescriptionChange : Bool
  onTracksChange : Bool
  onAddTrack : Bool
  onDeleteTrack : Bool
  onMoveTrack : Bool
deriving DecidableEq, Repr

/-- One playlist object: title, description, the ordered track sequence
(tracks referenced by numeric identity), and the installed slots. -/
structure Playlist where
  title : String
  description : String
  tracks : List Nat
  slots : Slots
deriving DecidableEq, Repr

/-- A deep embedding of the zero-argument closures stored in history records:
each revert closure re-invokes one model mutator with captured arguments. -/
inductive Op where
  | setTitle (pid : Nat) (title : String)
  | setDescription (pid : Nat) (descr : String)
  | addTrack (pid : Nat) (track : Nat)
  | deleteTrack (pid : Nat) (track : Nat)
  | moveTrack (pid : Nat) (fromIdx toIdx : Nat)
  | addPlaylist (pid : Nat)
  | deletePlaylist (pid : Nat)
deriving DecidableEq, Repr

/-- A history record: a human-readable description plus the revert operation. -/
structure HistRecord where
  description : String
  revert : Op
deriving DecidableEq, Repr

/-- Names of the notification slots, used in traces. -/
inductive Slot where
  | onChange
  | onDeletePlaylist
  | onTitleChange
  | onDescriptionChange
  | onTracksChange
  | onAddTrack
  | onDeleteTrack
  | onMoveTrack
deriving DecidableEq, Repr

/-- Externally observable actions a mutator performs, in call order. -/
inductive Ev where
  | mutate
  | notify (sl : Slot)
  | histLog (d : String)
  | save
deriving DecidableEq, Repr

/-- The whole model-layer state: the store of playlist objects by identity,
the `myPlaylists.playlists` sequence (identities, in order), the two
`PlaylistSet` notification slots, and the `History` namespace state
(`records`, with the top of the stack at the head, and `duringUndo`). -/
structure ModelState where
  heap : List (Nat × Playlist)
  playlists : List Nat
  onChange : Bool
  onDeletePlaylist : Bool
  records : List HistRecord
  duringUndo : Bool
deriving DecidableEq, Repr

/-- Playlist object used when dereferencing an identity that is not in the
heap (never reached from valid states). -/
def emptyPlaylist : Playlist :=
  { title := "", description := "", tracks := []
    slots := ⟨false, false, false, false, false, false⟩ }

/-- Dereferences a playlist identity. -/
def ModelState.getPl (s : ModelState) (pid : Nat) : Playlist :=
  (s.heap.lookup pid).getD emptyPlaylist

/-- Overwrites the playlist object stored under an identity. -/
def ModelState.setPl (s : ModelState) (pid : Nat) (p : Playlist) : ModelState :=
  { s with heap := s.heap.map (fun e => if e.1 = pid then (pid, p) else e) }

/-- Model of `History.log(description, revert)`: appends a record unless called during
an undo.  (The source also refreshes the undo button; that is view-layer
work with no model state.) -/
def History.log (d : String) (r : Op) (s : ModelState) : ModelState :=
  if s.duringUndo then s else { s with records := ⟨d, r⟩ :: s.records }

/-- Model of `PlaylistSet.prototype.addPlaylist`: appends the playlist, notifies
`onChange`, logs the inverse `deletePlaylist`, saves. -/
def PlaylistSet.addPlaylist (s : ModelState) (pid : Nat) : ModelState × List Ev :=
  let s1 := { s with playlists := s.playlists ++ [pid] }
  let ev1 := if s.onChange then [Ev.notify Slot.onChange] else []
  let s2 := History.log "Add Playlist" (Op.deletePlaylist pid) s1
  (s2, [Ev.mutate] ++ ev1 ++ [Ev.histLog "Add Playlist", Ev.save])

/-- Model of `PlaylistSet.prototype.deletePlaylist`: splices out the playlist at its
`indexOf` position, notifies `onChange` and `onDeletePlaylist`, logs the
inverse `addPlaylist`, saves. -/
def PlaylistSet.deletePlaylist (s : ModelState) (pid : Nat) : ModelState × List Ev :=
  let index := jsIndexOf s.playlists pid
  let s1 := { s with playlists := jsSpliceRemove1 s.playlists index }
  let ev1 := if s.onChange then [Ev.notify Slot.onChange] else []
  let ev2 := if s.onDeletePlaylist then [Ev.notify Slot.onDeletePlaylist] else []
  let s2 := History.log "Delete Playlist" (Op.addPlaylist pid) s1
  (s2, [Ev.mutate] ++ ev1 ++ ev2 ++ [Ev.histLog "Delete Playlist", Ev.save])

/-- Model of `Playlist.prototype.setTitle`: captures the old title, overwrites it,
notifies `onTitleChange`, logs the inverse (the source labels this record
with the copy-pasted string used by `setDescription`), saves. -/
def Playlist.setTitle (s : ModelState) (pid : Nat) (title : String) :
    ModelState × List Ev :=
  let p := s.getPl pid
  let oldTitle := p.title
  let s1 := s.setPl pid { p with title := title }
  let ev1 := if p.slots.onTitleChange then [Ev.notify Slot.onTitleChange] else []
  let s2 := History.log "Set Description" (Op.setTitle pid oldTitle) s1
  (s2, [Ev.mutate] ++ ev1 ++ [Ev.histLog "Set Description", Ev.save])

/-- Model of `Playlist.prototype.setDescription`: captures the old description,
overwrites it, notifies `onDescriptionChange`, logs the inverse, saves. -/
def Playlist.setDescription (s : ModelState) (pid : Nat) (descr : String) :
    ModelState × List Ev :=
  let p := s.getPl pid
  let oldDescription := p.description
  let s1 := s.setPl pid { p with description := descr }
  let ev1 :=
    if p.slots.onDescriptionChange then [Ev.notify Slot.onDescriptionChange] else []
  let s2 := History.log "Set Description" (Op.setDescription pid oldDescription) s1
  (s2, [Ev.mutate] ++ ev1 ++ [Ev.histLog "Set Description", Ev.save])

/-- Model of `Playlist.prototype.addTrack`: notifies `onTracksChange` first, pushes the
track, notifies `onAddTrack`, logs the inverse `deleteTrack`, saves. -/
def Playlist.addTrack (s : ModelState) (pid : Nat) (track : Nat) :
    ModelState × List Ev :=
  let p := s.getPl pid
  let ev0 := if p.slots.onTracksChange then [Ev.notify Slot.onTracksChange] else []
  let s1 := s.setPl pid { p with tracks := p.tracks ++ [track] }
  let ev1 := if p.slots.onAddTrack then [Ev.notify Slot.onAddTrack] else []
  let s2 := History.log "Add Track" (Op.deleteTrack pid track) s1
  (s2, ev0 ++ [Ev.mutate] ++ ev1 ++ [Ev.histLog "Add Track", Ev.save])

/-- Model of `Playlist.prototype.deleteTrack`: notifies `onTracksChange` first, splices
out the track at its `indexOf` position, notifies `onDeleteTrack`, logs the
inverse `addTrack`, saves. -/
def Playlist.deleteTrack (s : ModelState) (pid : Nat) (track : Nat) :
    ModelState × List Ev :=
  let p := s.getPl pid
  let ev0 := if p.slots.onTracksChange then [Ev.notify Slot.onTracksChange] else []
  let index := jsIndexOf p.tracks track
  let s1 := s.setPl pid { p with tracks := jsSpliceRemove1 p.tracks index }
  let ev1 := if p.slots.onDeleteTrack then [Ev.notify Slot.onDeleteTrack] else []
  let s2 := History.log "Delete Track" (Op.addTrack pid track) s1
  (s2, ev0 ++ [Ev.mutate] ++ ev1 ++ [Ev.histLog "Delete Track", Ev.save])

/-- Model of `Playlist.prototype.moveTrack`: notifies `onTracksChange` first, returns
early when `from == to`; otherwise reads the track at `from`, splices it out
of `from` and into `to`, notifies `onMoveTrack`, logs the inverse
`moveTrack(to, from)`, saves.  (An out-of-range read yields a junk track
identity, standing for JavaScript `undefined`.) -/
def Playlist.moveTrack (s : ModelState) (pid : Nat) (fromIdx toIdx : Nat) :
    ModelState × List Ev :=
  let p := s.getPl pid
  let ev0 := if p.slots.onTracksChange then [Ev.notify Slot.onTracksChange] else []
  if fromIdx = toIdx then (s, ev0)
  else
    let track := p.tracks.getD fromIdx 0
    let t1 := jsSpliceRemove1 p.tracks (fromIdx : Int)
    let t2 := jsSpliceInsert t1 (toIdx : Int) track
    let s1 := s.setPl pid { p with tracks := t2 }
    let ev1 := if p.slots.onMoveTrack then [Ev.notify Slot.onMoveTrack] else []
    let s2 := History.log "Move Track" (Op.moveTrack pid toIdx fromIdx) s1
    (s2, ev0 ++ [Ev.mutate] ++ ev1 ++ [Ev.histLog "Move Track", Ev.save])

/-- Runs a stored revert closure: each one is a single mutator call. -/
def Op.run (op : Op) (s : ModelState) : ModelState × List Ev :=
  match op with
  | .setTitle pid t => Playlist.setTitle s pid t
  | .setDescription pid d => Playlist.setDescription s pid d
  | .addTrack pid tr => Playlist.addTrack s pid tr
  | .deleteTrack pid tr => Playlist.deleteTrack s pid tr
  | .moveTrack pid f t => Playlist.moveTrack s pid f t
  | .addPlaylist pid => PlaylistSet.addPlaylist s pid
  | .deletePlaylist pid => PlaylistSet.deletePlaylist s pid

/-- Model of `History.undo`: no-op on an empty stack; otherwise pops the top record,
runs its revert with `duringUndo` set, then clears the flag. -/
def History.undo (s : ModelState) : ModelState × List Ev :=
  match s.records with
  | [] => (s, [])
  | r :: rest =>
    let s1 := { s with records := rest, duringUndo := true }
    let r2 := Op.run r.revert s1
    ({ r2.1 with duringUndo := false }, r2.2)

/-- Inner loop test of `PlaylistSet.prototype.uniqueTitle`: whether some
playlist of the set already carries the candidate title. -/
def titleTaken (s : ModelState) (t : String) : Bool :=
  s.playlists.any (fun pid => (s.getPl pid).title == t)

/-- Model of `PlaylistSet.prototype.uniqueTitle`: tries the titles of the form
`Playlist n` for `n = 1, 2, ..., 999` in order and returns the first
one no playlist carries; falls off the loop (returns `undefined`, modelled
as `none`) when all are taken. -/
def PlaylistSet.uniqueTitle (s : ModelState) : Option String :=
  ((List.range' 1 999).find?
      (fun n => !(titleTaken s ("Playlist " ++ toString n)))).map
    (fun n => "Playlist " ++ toString n)

/-- The `Player` session state: the index of the currently played track
(`-1` when none), the currently playing sound handle, and the preloaded
next sound handle.  Sound handles are opaque numeric identities. -/
structure PlayerState where
  index : Int
  sound : Option Nat
  nextSound : Option Nat
deriving DecidableEq, Repr

/-- Externally observable actions of the `Player`: writing the play/stop
button label, stopping the current sound, starting playback of a handle
(its completion callback is `playNextTrack`), and issuing an asynchronous
`SC.stream` request for a track identity. -/
inductive PEv where
  | setButton (label : String)
  | soundStop
  | soundPlay (h : Nat)
  | streamRequest (trackId : Nat)
deriving DecidableEq, Repr

/-- Model of `Player.prototype.stop`: resets the button, and if a sound is playing
stops it and clears both handles; always resets the index to `-1`. -/
def Player.stop (p : PlayerState) : PlayerState × List PEv :=
  if p.sound.isSome then
    ({ index := -1, sound := none, nextSound := none },
      [PEv.setButton "Play", PEv.soundStop])
  else
    ({ p with index := -1 }, [PEv.setButton "Play"])

/-- Model of `Player.prototype.playSound` over the owning playlist's track sequence:
stores and starts the handle, clears the preload slot, and issues one
preload request for the following track when it exists.  Called by the
streaming collaborator when a requested sound is ready, or directly with a
preloaded handle. -/
def Player.playSound (tracks : List Nat) (p : PlayerState) (h : Nat) :
    PlayerState × List PEv :=
  let p1 := { p with sound := some h, nextSound := none }
  if p.index + 1 < (tracks.length : Int) then
    (p1, [PEv.soundPlay h, PEv.streamRequest (tracks.getD (p.index + 1).toNat 0)])
  else
    (p1, [PEv.soundPlay h])

/-- Model of `Player.prototype.playNextTrack`: increments the index; past the end of
the track sequence it clears the sound and stops; with a preloaded handle it
plays that immediately (clearing the slot); otherwise it requests a fresh
handle (playback then starts when the handle arrives at `playSound`).  This
is also the completion callback installed on every started sound. -/
def Player.playNextTrack (tracks : List Nat) (p : PlayerState) :
    PlayerState × List PEv :=
  let p1 := { p with index := p.index + 1 }
  if p1.index ≥ (tracks.length : Int) then
    Player.stop { p1 with sound := none }
  else
    match p1.nextSound with
    | some h => Player.playSound tracks { p1 with nextSound := none } h
    | none => (p1, [PEv.streamRequest (tracks.getD p1.index.toNat 0)])

/-- Arrival of a preload response: the stored callback writes the handle
into the preload slot. -/
def Player.preloadArrive (p : PlayerState) (h : Nat) : PlayerState :=
  { p with nextSound := some h }

/-- Model of `Player.prototype.play`: switches the button to Stop, resets the index
to before-first, clears the preload slot and starts the chained advance. -/
def Player.play (tracks : List Nat) (p : PlayerState) : PlayerState × List PEv :=
  let p1 := { p with index := -1, nextSound := none }
  let r := Player.playNextTrack tracks p1
  (r.1, [PEv.setButton "Stop"] ++ r.2)

/-- Observable equality of two model states: same playlist sequence and the
same playlist object under every identity. -/
def ObsEq (s s' : ModelState) : Prop :=
  s.playlists = s'.playlists ∧ ∀ pid, s.getPl pid = s'.getPl pid

/-- Whether a trace event is the `History.log` call. -/
def isHistLog : Ev → Bool
  | Ev.histLog _ => true
  | _ => false

/-- Position of the `History.log` call in a trace. -/
def logIdx (tr : List Ev) : Nat := tr.findIdx isHistLog

/-- Position of an event in a trace. -/
def evIdx (tr : List Ev) (e : Ev) : Nat := tr.findIdx (fun x => x = e)

/-- The slot's callback fires inside the call, after the state mutation and
before the `History.log` call. -/
def firesPost (tr : List Ev) (sl : Slot) : Prop :=
  Ev.notify sl ∈ tr ∧ evIdx tr Ev.mutate < evIdx tr (Ev.notify sl) ∧
    evIdx tr (Ev.notify sl) < logIdx tr

/-- The slot's callback fires inside the call, before the state mutation. -/
def firesPre (tr : List Ev) (sl : Slot) : Prop :=
  Ev.notify sl ∈ tr ∧ evIdx tr (Ev.notify sl) < evIdx tr Ev.mutate

/-- A slots record with no callbacks installed. -/
def noSlots : Slots := ⟨false, false, false, false, false, false⟩

/-- A reachable state with one playlist holding four tracks. -/
def fourTrackState : ModelState :=
  { heap := [(0, { title := "Mix", description := "", tracks := [10, 20, 30, 40]
                   slots := noSlots })]
    playlists := [0], onChange := false, onDeletePlaylist := false
    records := [], duringUndo := false }

/-- A reachable state with one playlist holding a single track. -/
def oneTrackState : ModelState :=
  { heap := [(0, { title := "Solo", description := "", tracks := [5]
                   slots := noSlots })]
    playlists := [0], onChange := false, onDeletePlaylist := false
    records := [], duringUndo := false }

/-- The empty model state: no playlist objects, no playlists, no records. -/
def emptyState : ModelState :=
  { heap := [], playlists := [], onChange := false, onDeletePlaylist := false
    records := [], duringUndo := false }

/-- Base state for the C1 counterexample: one playlist object not yet in
the set, empty history. -/
def cexBase : ModelState :=
  { heap := [(0, { title := "A", description := "", tracks := [7]
                   slots := noSlots })]
    playlists := [], onChange := false, onDeletePlaylist := false
    records := [], duringUndo := false }

/-- Reachable state for the C1 counterexample: `addPlaylist` then
`setTitle "B"`, so the history holds the `setTitle "A"` revert on top. -/
def cexReached : ModelState :=
  (Playlist.setTitle (PlaylistSet.addPlaylist cexBase 0).1 0 "B").1

/-- State for the C7 scenario: a single playlist titled Playlist 1. -/
def playlistOneState : ModelState :=
  { heap := [(0, { title := "Playlist 1", description := "", tracks := []
                   slots := noSlots })]
    playlists := [0], onChange := false, onDeletePlaylist := false
    records := [], duringUndo := false }

/-- A state whose playlist has every notification slot registered and whose
set has both set-level slots registered. -/
def allSlotsState : ModelState :=
  { heap := [(0, { title := "Mix", description := "", tracks := [10, 20]
                   slots := ⟨true, true, true, true, true, true⟩ })]
    playlists := [0], onChange := true, onDeletePlaylist := true
    records := [], duringUndo := false }

/-- A player session currently playing track 0 with track 1 preloaded. -/
def playingState : PlayerState :=
  { index := 0, sound := some 100, nextSound := some 101 }

/-- The idle player session. -/
def idleState : PlayerState :=
  { index := -1, sound := none, nextSound := none }

/-- Membership gives a nonnegative index strictly below the length. -/
theorem jsIndexOf_mem_bounds {l : List Nat} {x : Nat} (h : x ∈ l) :
    0 ≤ jsIndexOf l x ∧ jsIndexOf l x < l.length := by
  induction l with
  | nil => cases h
  | cons y ys ih =>
    by_cases hxy : y = x
    · simp [jsIndexOf, hxy]
    · rcases List.mem_cons.mp h with h' | h'
      · exact absurd h'.symm hxy
      · rcases ih h' with ⟨h0, h1⟩
        simp only [jsIndexOf, hxy, if_false, List.length_cons]
        rw [if_neg (by omega)]
        constructor <;> [omega; (push_cast; omega)]

/-- An absent element has index `-1`. -/
theorem jsIndexOf_of_not_mem {l : List Nat} {x : Nat} (h : x ∉ l) :
    jsIndexOf l x = -1 := by
  induction l with
  | nil => rfl
  | cons y ys ih =>
    have hxy : y ≠ x := fun he => h (he ▸ List.mem_cons_self y ys)
    have hm : x ∉ ys := fun hm => h (List.mem_cons_of_mem _ hm)
    simp [jsIndexOf, hxy, ih hm]

/-- Removal past the end changes nothing. -/
theorem eraseIdx_of_le {α : Type} : ∀ (l : List α) (k : Nat), l.length ≤ k →
    l.eraseIdx k = l
  | [], _, _ => by simp
  | _ :: _, 0, h => by simp at h
  | a :: t, k + 1, h => by
    simp only [List.eraseIdx_cons_succ, List.cons.injEq, true_and]
    exact eraseIdx_of_le t k (by simpa using h)

/-- For a nonnegative relative index, one-element splice removal is `eraseIdx`. -/
theorem jsSpliceRemove1_natCast {α : Type} (l : List α) (k : Nat) :
    jsSpliceRemove1 l (k : Int) = l.eraseIdx k := by
  unfold jsSpliceRemove1 jsSpliceStart
  rw [if_neg (by omega)]
  rcases le_or_lt (l.length) k with h | h
  · have hm : min ((k : Int)).toNat l.length = l.length := by
      simp only [Int.toNat_natCast]
      omega
    rw [hm, eraseIdx_of_le _ _ le_rfl, eraseIdx_of_le _ _ h]
  · have hm : min ((k : Int)).toNat l.length = k := by
      simp only [Int.toNat_natCast]
      omega
    rw [hm]

/-- Index computation step on a cons cell whose head does not match. -/
theorem jsIndexOf_cons_of_mem {y x : Nat} {ys : List Nat} (hxy : y ≠ x)
    (h' : x ∈ ys) : jsIndexOf (y :: ys) x = jsIndexOf ys x + 1 := by
  have h0 := (jsIndexOf_mem_bounds h').1
  simp only [jsIndexOf]
  rw [if_neg hxy, if_neg (by omega)]

/-- Splicing out the element found by `indexOf` removes the first occurrence. -/
theorem jsSpliceRemove1_jsIndexOf {l : List Nat} {x : Nat} (h : x ∈ l) :
    jsSpliceRemove1 l (jsIndexOf l x) = l.erase x := by
  induction l with
  | nil => cases h
  | cons y ys ih =>
    by_cases hxy : y = x
    · subst hxy
      simp [jsIndexOf, jsSpliceRemove1, jsSpliceStart, List.erase_cons_head]
    · rcases List.mem_cons.mp h with h' | h'
      · exact absurd h'.symm hxy
      · rcases jsIndexOf_mem_bounds h' with ⟨h0, h1⟩
        rw [jsIndexOf_cons_of_mem hxy h']
        have hcast : jsIndexOf ys x + 1 = ((jsIndexOf ys x).toNat + 1 : Nat) := by
          omega
        rw [hcast, jsSpliceRemove1_natCast, List.eraseIdx_cons_succ,
          List.erase_cons_tail (by simp [hxy])]
        rw [← ih h', jsSpliceRemove1, jsSpliceStart]
        rw [if_neg ((by omega : ¬ jsIndexOf ys x < 0))]
        have hmin : min (jsIndexOf ys x).toNat ys.length = (jsIndexOf ys x).toNat := by
          omega
        rw [hmin]

/-- Removing the last position is `dropLast`. -/
theorem eraseIdx_length_sub_one {α : Type} : ∀ (l : List α),
    l.eraseIdx (l.length - 1) = l.dropLast
  | [] => rfl
  | [_] => rfl
  | a :: b :: t => by
    have := eraseIdx_length_sub_one (b :: t)
    simp only [List.length_cons, Nat.add_sub_cancel] at this ⊢
    simp only [List.eraseIdx_cons_succ, this, List.dropLast_cons₂]

/-- A splice removal at relative index `-1` drops the last element. -/
theorem jsSpliceRemove1_neg_one {α : Type} (l : List α) :
    jsSpliceRemove1 l (-1) = l.dropLast := by
  unfold jsSpliceRemove1 jsSpliceStart
  rw [if_pos (by omega)]
  have : ((-1 : Int) + l.length).toNat = l.length - 1 := by omega
  rw [this, eraseIdx_length_sub_one]

/-- For an in-range relative index, splice insertion is `insertIdx`. -/
theorem jsSpliceInsert_natCast {α : Type} (l : List α) (k : Nat) (x : α)
    (h : k ≤ l.length) : jsSpliceInsert l (k : Int) x = l.insertIdx k x := by
  unfold jsSpliceInsert jsSpliceStart
  rw [if_neg (by omega)]
  congr 1
  simp [Int.toNat_natCast, min_eq_left h]

/-- Re-inserting the element just removed restores the list. -/
theorem insertIdx_getElem_eraseIdx {α : Type} : ∀ (l : List α) (n : Nat)
    (h : n < l.length), (l.eraseIdx n).insertIdx n l[n] = l
  | a :: t, 0, _ => by simp
  | a :: t, n + 1, h => by
    simp only [List.eraseIdx_cons_succ, List.getElem_cons_succ,
      List.insertIdx_succ_cons, List.cons.injEq, true_and]
    exact insertIdx_getElem_eraseIdx t n (by simpa using h)

/-- Erasing a freshly appended element recovers the original list. -/
theorem erase_append_singleton {l : List Nat} {x : Nat} (h : x ∉ l) :
    (l ++ [x]).erase x = l := by
  rw [List.erase_append_right _ h, List.erase_cons_head, List.append_nil]

/-- Looking up the written key after an identity-keyed overwrite. -/
theorem lookup_update_self {h : List (Nat × Playlist)} {pid : Nat} {q : Playlist}
    (hl : List.lookup pid h = some q) (p : Playlist) :
    List.lookup pid (h.map (fun e => if e.1 = pid then (pid, p) else e)) = some p := by
  induction h with
  | nil => simp at hl
  | cons a t ih =>
    obtain ⟨k, v⟩ := a
    by_cases hpa : k = pid
    · subst hpa
      simp
    · rw [List.map_cons, if_neg hpa]
      rw [List.lookup_cons, show (pid == k) = false by simp [Ne.symm hpa]] at hl
      rw [List.lookup_cons, show (pid == k) = false by simp [Ne.symm hpa]]
      exact ih hl

/-- Other keys are unaffected by an identity-keyed overwrite. -/
theorem lookup_update_ne {pid' pid : Nat} (hne : pid' ≠ pid)
    (h : List (Nat × Playlist)) (p : Playlist) :
    List.lookup pid' (h.map (fun e => if e.1 = pid then (pid, p) else e)) =
      List.lookup pid' h := by
  induction h with
  | nil => rfl
  | cons a t ih =>
    obtain ⟨k, v⟩ := a
    by_cases hpa : k = pid
    · subst hpa
      rw [List.map_cons, if_pos rfl, List.lookup_cons, List.lookup_cons,
        show (pid' == k) = false by simp [hne]]
      exact ih
    · rw [List.map_cons, if_neg hpa]
      by_cases hp' : pid' = k
      · subst hp'
        simp
      · rw [List.lookup_cons, List.lookup_cons,
          show (pid' == k) = false by simp [hp']]
        exact ih

/-- Two successive overwrites of the same identity collapse to the second. -/
theorem update_update (h : List (Nat × Playlist)) (pid : Nat) (q p : Playlist) :
    ((h.map (fun e => if e.1 = pid then (pid, q) else e)).map
        (fun e => if e.1 = pid then (pid, p) else e)) =
      h.map (fun e => if e.1 = pid then (pid, p) else e) := by
  rw [List.map_map]
  apply List.map_congr_left
  intro e _
  by_cases he : e.1 = pid <;> simp [Function.comp, he]

/-- A state with the original object written back over an identity it already
carries is observably the original state. -/
theorem obsEq_setPl_self {s : ModelState} {pid : Nat} {p : Playlist}
    (hp : s.heap.lookup pid = some p) : ObsEq (s.setPl pid p) s := by
  refine ⟨rfl, fun pid' => ?_⟩
  by_cases hne : pid' = pid
  · subst hne
    simp [ModelState.getPl, ModelState.setPl, lookup_update_self hp, hp]
  · simp [ModelState.getPl, ModelState.setPl, lookup_update_ne hne]

/-- Undo right after `setTitle` writes the captured old playlist object back. -/
theorem undo_setTitle (s : ModelState) (pid : Nat) (p : Playlist) (t : String)
    (hd : s.duringUndo = false) (hp : s.heap.lookup pid = some p) :
    (History.undo (Playlist.setTitle s pid t).1).1 = s.setPl pid p := by
  obtain ⟨hp0, pl0, oc0, od0, rec0, du0⟩ := s
  simp only at hd hp
  subst hd
  simp [Playlist.setTitle, History.log, History.undo, Op.run,
    ModelState.getPl, ModelState.setPl, hp, lookup_update_self hp]
  intro a b _
  by_cases ha : a = pid
  · subst ha
    simp
  · simp [ha]

/-- Undo right after `setDescription` writes the old object back. -/
theorem undo_setDescription (s : ModelState) (pid : Nat) (p : Playlist)
    (d : String) (hd : s.duringUndo = false)
    (hp : s.heap.lookup pid = some p) :
    (History.undo (Playlist.setDescription s pid d).1).1 = s.setPl pid p := by
  obtain ⟨hp0, pl0, oc0, od0, rec0, du0⟩ := s
  simp only at hd hp
  subst hd
  simp [Playlist.setDescription, History.log, History.undo, Op.run,
    ModelState.getPl, ModelState.setPl, hp, lookup_update_self hp]
  intro a b _
  by_cases ha : a = pid
  · subst ha
    simp
  · simp [ha]

/-- Undo right after `addTrack` of a fresh track removes it again. -/
theorem undo_addTrack (s : ModelState) (pid : Nat) (p : Playlist) (tr : Nat)
    (hd : s.duringUndo = false) (hp : s.heap.lookup pid = some p)
    (htr : tr ∉ p.tracks) :
    (History.undo (Playlist.addTrack s pid tr).1).1 = s.setPl pid p := by
  obtain ⟨hp0, pl0, oc0, od0, rec0, du0⟩ := s
  simp only at hd hp
  subst hd
  simp [Playlist.addTrack, Playlist.deleteTrack, History.log, History.undo,
    Op.run, ModelState.getPl, ModelState.setPl, hp, lookup_update_self hp,
    jsSpliceRemove1_jsIndexOf (show tr ∈ p.tracks ++ [tr] by simp),
    erase_append_singleton htr]
  intro a b _
  by_cases ha : a = pid
  · subst ha
    simp
  · simp [ha]

/-- Undo right after `deleteTrack` of a present track re-appends it at the
end of the sequence. -/
theorem undo_deleteTrack (s : ModelState) (pid : Nat) (p : Playlist) (tr : Nat)
    (hd : s.duringUndo = false) (hp : s.heap.lookup pid = some p)
    (htr : tr ∈ p.tracks) :
    (History.undo (Playlist.deleteTrack s pid tr).1).1 =
      s.setPl pid { p with tracks := p.tracks.erase tr ++ [tr] } := by
  obtain ⟨hp0, pl0, oc0, od0, rec0, du0⟩ := s
  simp only at hd hp
  subst hd
  simp [Playlist.deleteTrack, Playlist.addTrack, History.log, History.undo,
    Op.run, ModelState.getPl, ModelState.setPl, hp, lookup_update_self hp,
    jsSpliceRemove1_jsIndexOf htr]
  intro a b _
  by_cases ha : a = pid
  · subst ha
    simp
  · simp [ha]

/-- Undo right after a proper `moveTrack` moves the track back. -/
theorem undo_moveTrack (s : ModelState) (pid : Nat) (p : Playlist)
    (fromIdx toIdx : Nat) (hd : s.duringUndo = false)
    (hp : s.heap.lookup pid = some p) (hne : fromIdx ≠ toIdx)
    (hf : fromIdx < p.tracks.length) (ht : toIdx < p.tracks.length) :
    (History.undo (Playlist.moveTrack s pid fromIdx toIdx).1).1 =
      s.setPl pid p := by
  obtain ⟨hp0, pl0, oc0, od0, rec0, du0⟩ := s
  simp only at hd hp
  subst hd
  have hlen : (p.tracks.eraseIdx fromIdx).length = p.tracks.length - 1 := by
    simp [List.length_eraseIdx, hf]
  have hle : toIdx ≤ (p.tracks.eraseIdx fromIdx).length := by omega
  have hget : p.tracks.getD fromIdx 0 = p.tracks[fromIdx] :=
    List.getD_eq_getElem _ _ hf
  have hmove : jsSpliceInsert (jsSpliceRemove1 p.tracks (fromIdx : Int))
      (toIdx : Int) (p.tracks.getD fromIdx 0) =
      (p.tracks.eraseIdx fromIdx).insertIdx toIdx p.tracks[fromIdx] := by
    rw [jsSpliceRemove1_natCast, jsSpliceInsert_natCast _ _ _ hle, hget]
  have hlt :
      toIdx < ((p.tracks.eraseIdx fromIdx).insertIdx toIdx p.tracks[fromIdx]).length := by
    rw [List.length_insertIdx _ _ hle]
    omega
  have hgetBack :
      ((p.tracks.eraseIdx fromIdx).insertIdx toIdx p.tracks[fromIdx]).getD
        toIdx 0 = p.tracks[fromIdx] := by
    rw [List.getD_eq_getElem _ _ hlt]
    exact List.getElem_insertIdx_self _ _ _ hle
  have hback : jsSpliceInsert
      (jsSpliceRemove1
        ((p.tracks.eraseIdx fromIdx).insertIdx toIdx p.tracks[fromIdx])
        (toIdx : Int))
      (fromIdx : Int)
      (((p.tracks.eraseIdx fromIdx).insertIdx toIdx p.tracks[fromIdx]).getD
        toIdx 0) = p.tracks := by
    rw [hgetBack, jsSpliceRemove1_natCast, List.eraseIdx_insertIdx,
      jsSpliceInsert_natCast _ _ _ (by omega), insertIdx_getElem_eraseIdx _ _ hf]
  simp only [List.getD_eq_getElem?_getD] at hmove hback
  simp [Playlist.moveTrack, History.log, History.undo, Op.run,
    ModelState.getPl, ModelState.setPl, hp, lookup_update_self hp, hne,
    Ne.symm hne, hmove, hback]
  intro a b _
  by_cases ha : a = pid
  · subst ha
    simp
  · simp [ha]

/-- Undo right after `addPlaylist` of a fresh playlist restores the state
exactly. -/
theorem undo_addPlaylist (s : ModelState) (pid : Nat)
    (hd : s.duringUndo = false) (hnp : pid ∉ s.playlists) :
    (History.undo (PlaylistSet.addPlaylist s pid).1).1 = s := by
  obtain ⟨hp0, pl0, oc0, od0, rec0, du0⟩ := s
  simp only at hd hnp
  subst hd
  simp [PlaylistSet.addPlaylist, PlaylistSet.deletePlaylist, History.log,
    History.undo, Op.run,
    jsSpliceRemove1_jsIndexOf (show pid ∈ pl0 ++ [pid] by simp),
    erase_append_singleton hnp]

/-- Undo right after `deletePlaylist` of a present playlist re-appends it at
the end of the sequence. -/
theorem undo_deletePlaylist (s : ModelState) (pid : Nat)
    (hd : s.duringUndo = false) (hps : pid ∈ s.playlists) :
    (History.undo (PlaylistSet.deletePlaylist s pid).1).1 =
      { s with playlists := s.playlists.erase pid ++ [pid] } := by
  obtain ⟨hp0, pl0, oc0, od0, rec0, du0⟩ := s
  simp only at hd hps
  subst hd
  simp [PlaylistSet.deletePlaylist, PlaylistSet.addPlaylist, History.log,
    History.undo, Op.run, jsSpliceRemove1_jsIndexOf hps]

/-- While `duringUndo` is set, no mutator changes the record stack or the
flag (the re-entrant `History.log` calls are suppressed). -/
theorem run_duringUndo_records (op : Op) (s : ModelState)
    (hd : s.duringUndo = true) :
    (Op.run op s).1.records = s.records ∧ (Op.run op s).1.duringUndo = true := by
  obtain ⟨hp0, pl0, oc0, od0, rec0, du0⟩ := s
  simp only at hd
  subst hd
  cases op <;>
    simp [Op.run, Playlist.setTitle, Playlist.setDescription, Playlist.addTrack,
      Playlist.deleteTrack, Playlist.moveTrack, PlaylistSet.addPlaylist,
      PlaylistSet.deletePlaylist, History.log, ModelState.setPl] <;>
    split <;> simp

/-- Undo pops exactly the top record: the resulting stack is the tail of the
previous one, whatever the revert operation did. -/
theorem undo_pops_top (s : ModelState) :
    (History.undo s).1.records = s.records.tail := by
  obtain ⟨hp0, pl0, oc0, od0, rec0, du0⟩ := s
  cases rec0 with
  | nil => rfl
  | cons r rest =>
    have h := run_duringUndo_records r.revert ⟨hp0, pl0, oc0, od0, rest, true⟩ rfl
    simpa [History.undo] using h.1

/-- List-level effect of a proper `moveTrack`: splice out at the source
index, splice back in at the destination index. -/
theorem moveTrack_list_eq (l : List Nat) (f t : Nat) (hf : f < l.length)
    (ht : t < l.length) :
    jsSpliceInsert (jsSpliceRemove1 l (f : Int)) (t : Int) (l.getD f 0) =
      (l.eraseIdx f).insertIdx t l[f] := by
  have hlen : (l.eraseIdx f).length = l.length - 1 := by
    simp [List.length_eraseIdx, hf]
  rw [jsSpliceRemove1_natCast, jsSpliceInsert_natCast _ _ _ (by omega),
    List.getD_eq_getElem _ _ hf]

/-- Minimality of `find?` over an ascending `range'`: a hit satisfies the
predicate, lies in the range, and every earlier range element fails it. -/
theorem find?_range'_min {p : Nat → Bool} :
    ∀ (k start : Nat) {n : Nat}, (List.range' start k).find? p = some n →
      p n = true ∧ start ≤ n ∧ n < start + k ∧
        ∀ m, start ≤ m → m < n → p m = false
  | 0, start, n, h => by simp at h
  | k + 1, start, n, h => by
    rw [List.range'_succ] at h
    rw [List.find?_cons] at h
    by_cases hs : p start
    · rw [hs] at h
      obtain rfl : start = n := by simpa using h
      exact ⟨hs, le_rfl, by omega, fun m hm hm' => absurd hm' (by omega)⟩
    · rw [Bool.not_eq_true] at hs
      rw [hs] at h
      obtain ⟨hp, h1, h2, h3⟩ := find?_range'_min k (start + 1) h
      refine ⟨hp, by omega, by omega, fun m hm hm' => ?_⟩
      rcases Nat.eq_or_lt_of_le hm with rfl | hlt
      · exact hs
      · exact h3 m hlt hm'

/-- Claim C10: `moveTrack(i, i)` fires the pre-mutation `onTracksChange` callback
when registered and then returns early, leaving the whole model state
(tracks, history, persistence) untouched and firing no `onMoveTrack`. -/
theorem moveTrack_same_index_early_return (s : ModelState) (pid i : Nat) :
    Playlist.moveTrack s pid i i =
      (s, if (s.getPl pid).slots.onTracksChange then [Ev.notify Slot.onTracksChange]
          else []) := by
  simp [Playlist.moveTrack]

/-- Claim C5: a proper `moveTrack(from, to)` removes the track at `from` and
re-inserts it at `to`, and logs `moveTrack(to, from)` as its inverse; on
the four-track sequence, `moveTrack(0, 2)` yields `[B,C,A,D]` and an
immediate undo restores `[A,B,C,D]`. -/
theorem moveTrack_semantics_and_inverse (s : ModelState) (pid : Nat)
    (p : Playlist) (f t : Nat) (hd : s.duringUndo = false)
    (hp : s.heap.lookup pid = some p) (hne : f ≠ t)
    (hf : f < p.tracks.length) (ht : t < p.tracks.length) :
    ((Playlist.moveTrack s pid f t).1.getPl pid).tracks =
        (p.tracks.eraseIdx f).insertIdx t p.tracks[f] ∧
      (Playlist.moveTrack s pid f t).1.records.head? =
        some ⟨"Move Track", Op.moveTrack pid t f⟩ ∧
      ((Playlist.moveTrack fourTrackState 0 0 2).1.getPl 0).tracks =
        [20, 30, 10, 40] ∧
      ((History.undo (Playlist.moveTrack fourTrackState 0 0 2).1).1.getPl
          0).tracks = [10, 20, 30, 40] := by
  obtain ⟨hp0, pl0, oc0, od0, rec0, du0⟩ := s
  simp only at hd hp
  subst hd
  refine ⟨?_, ?_, by decide, by decide⟩
  · have hm := moveTrack_list_eq p.tracks f t hf ht
    simp only [List.getD_eq_getElem?_getD] at hm
    simp [Playlist.moveTrack, History.log, ModelState.getPl, ModelState.setPl,
      hp, lookup_update_self hp, hne, hm]
  · simp [Playlist.moveTrack, History.log, ModelState.getPl, ModelState.setPl,
      hp, hne]

/-- Claim C6: deleting a present track (or playlist) logs an inverse that, when
undone, re-inserts the deleted entity at the end of the sequence rather
than at its original index. -/
theorem delete_inverse_appends_at_end (s : ModelState) (pid : Nat)
    (p : Playlist) (tr : Nat) (hd : s.duringUndo = false)
    (hp : s.heap.lookup pid = some p) (htr : tr ∈ p.tracks)
    (hps : pid ∈ s.playlists) :
    (Playlist.deleteTrack s pid tr).1.records.head? =
        some ⟨"Delete Track", Op.addTrack pid tr⟩ ∧
      ((History.undo (Playlist.deleteTrack s pid tr).1).1.getPl pid).tracks =
        ((Playlist.deleteTrack s pid tr).1.getPl pid).tracks ++ [tr] ∧
      (PlaylistSet.deletePlaylist s pid).1.records.head? =
        some ⟨"Delete Playlist", Op.addPlaylist pid⟩ ∧
      (History.undo (PlaylistSet.deletePlaylist s pid).1).1.playlists =
        (PlaylistSet.deletePlaylist s pid).1.playlists ++ [pid] := by
  refine ⟨?_, ?_, ?_, ?_⟩
  · obtain ⟨hp0, pl0, oc0, od0, rec0, du0⟩ := s
    simp only at hd hp
    subst hd
    simp [Playlist.deleteTrack, History.log, ModelState.setPl]
  · rw [undo_deleteTrack s pid p tr hd hp htr]
    obtain ⟨hp0, pl0, oc0, od0, rec0, du0⟩ := s
    simp only at hd hp
    subst hd
    simp [Playlist.deleteTrack, History.log, ModelState.getPl, ModelState.setPl,
      hp, lookup_update_self hp, jsSpliceRemove1_jsIndexOf htr]
  · obtain ⟨hp0, pl0, oc0, od0, rec0, du0⟩ := s
    simp only at hd hp
    subst hd
    simp [PlaylistSet.deletePlaylist, History.log]
  · rw [undo_deletePlaylist s pid hd hps]
    obtain ⟨hp0, pl0, oc0, od0, rec0, du0⟩ := s
    simp only at hd hps
    subst hd
    simp [PlaylistSet.deletePlaylist, History.log, jsSpliceRemove1_jsIndexOf hps]

/-- Claim C4 counterexample: deleting a track that is not in the playlist does not
leave the track sequence unchanged — `indexOf` yields `-1` and
`splice(-1, 1)` removes the last element. -/
theorem deleteTrack_absent_changes_tracks :
    ((Playlist.deleteTrack oneTrackState 0 9).1.getPl 0).tracks = [] ∧
      (oneTrackState.getPl 0).tracks = [5] ∧
      ((Playlist.deleteTrack oneTrackState 0 9).1.getPl 0).tracks ≠
        (oneTrackState.getPl 0).tracks := by decide

/-- Claim C4, amended: deleting an absent track removes the last element of the
track sequence (a no-op only when the sequence is empty), and deleting an
absent playlist removes the last playlist; in both cases exactly the usual
inverse record is pushed onto the history stack. -/
theorem delete_absent_removes_last (s : ModelState) (pid : Nat) (p : Playlist)
    (tr : Nat) (hd : s.duringUndo = false) (hp : s.heap.lookup pid = some p)
    (htr : tr ∉ p.tracks) :
    ((Playlist.deleteTrack s pid tr).1.getPl pid).tracks = p.tracks.dropLast ∧
      (Playlist.deleteTrack s pid tr).1.records =
        ⟨"Delete Track", Op.addTrack pid tr⟩ :: s.records ∧
      ∀ pid2, pid2 ∉ s.playlists →
        (PlaylistSet.deletePlaylist s pid2).1.playlists =
            s.playlists.dropLast ∧
          (PlaylistSet.deletePlaylist s pid2).1.records =
            ⟨"Delete Playlist", Op.addPlaylist pid2⟩ :: s.records := by
  obtain ⟨hp0, pl0, oc0, od0, rec0, du0⟩ := s
  simp only at hd hp
  subst hd
  refine ⟨?_, ?_, ?_⟩
  · simp [Playlist.deleteTrack, History.log, ModelState.getPl, ModelState.setPl,
      hp, lookup_update_self hp, jsIndexOf_of_not_mem htr,
      jsSpliceRemove1_neg_one]
  · simp [Playlist.deleteTrack, History.log, ModelState.setPl]
  · intro pid2 hnp2
    simp only at hnp2
    constructor
    · simp [PlaylistSet.deletePlaylist, History.log,
        jsIndexOf_of_not_mem hnp2, jsSpliceRemove1_neg_one]
    · simp [PlaylistSet.deletePlaylist, History.log]

/-- Claim C2: `undo()` on an empty stack is a no-op; in every case the resulting
stack is exactly the tail of the previous one (one record popped, none
appended), because every `History.log` call made while `duringUndo` is set
is suppressed. -/
theorem undo_stack_discipline (s : ModelState) :
    (s.records = [] → History.undo s = (s, [])) ∧
      (History.undo s).1.records = s.records.tail ∧
      ∀ op s2, s2.duringUndo = true → (Op.run op s2).1.records = s2.records := by
  refine ⟨fun h => ?_, undo_pops_top s, fun op s2 h2 =>
    (run_duringUndo_records op s2 h2).1⟩
  obtain ⟨hp0, pl0, oc0, od0, rec0, du0⟩ := s
  simp only at h
  subst h
  rfl

/-- Claim C1, amended: for valid mutator calls, one immediate undo restores the
observable model state exactly, except that undone deletions re-insert the
deleted entity at the end of its sequence. -/
theorem undo_restores_after_valid_mutator (s : ModelState) (pid : Nat)
    (p : Playlist) (hd : s.duringUndo = false)
    (hp : s.heap.lookup pid = some p) :
    (∀ t, ObsEq (History.undo (Playlist.setTitle s pid t).1).1 s) ∧
      (∀ d, ObsEq (History.undo (Playlist.setDescription s pid d).1).1 s) ∧
      (∀ tr, tr ∉ p.tracks →
        ObsEq (History.undo (Playlist.addTrack s pid tr).1).1 s) ∧
      (∀ f t, f ≠ t → f < p.tracks.length → t < p.tracks.length →
        ObsEq (History.undo (Playlist.moveTrack s pid f t).1).1 s) ∧
      (∀ tr, tr ∈ p.tracks →
        (History.undo (Playlist.deleteTrack s pid tr).1).1.playlists =
            s.playlists ∧
          ((History.undo (Playlist.deleteTrack s pid tr).1).1.getPl pid).title =
            p.title ∧
          ((History.undo (Playlist.deleteTrack s pid tr).1).1.getPl
              pid).description = p.description ∧
          ((History.undo (Playlist.deleteTrack s pid tr).1).1.getPl
              pid).tracks = p.tracks.erase tr ++ [tr] ∧
          ∀ pid2, pid2 ≠ pid →
            (History.undo (Playlist.deleteTrack s pid tr).1).1.getPl pid2 =
              s.getPl pid2) ∧
      (∀ pid2, pid2 ∉ s.playlists →
        (History.undo (PlaylistSet.addPlaylist s pid2).1).1 = s) ∧
      ∀ pid2, pid2 ∈ s.playlists →
        (History.undo (PlaylistSet.deletePlaylist s pid2).1).1 =
          { s with playlists := s.playlists.erase pid2 ++ [pid2] } := by
  refine ⟨fun t => ?_, fun d => ?_, fun tr htr => ?_,
    fun f t hne hf ht => ?_, fun tr htr => ?_, fun pid2 hnp => ?_,
    fun pid2 hps => ?_⟩
  · rw [undo_setTitle s pid p t hd hp]
    exact obsEq_setPl_self hp
  · rw [undo_setDescription s pid p d hd hp]
    exact obsEq_setPl_self hp
  · rw [undo_addTrack s pid p tr hd hp htr]
    exact obsEq_setPl_self hp
  · rw [undo_moveTrack s pid p f t hd hp hne hf ht]
    exact obsEq_setPl_self hp
  · rw [undo_deleteTrack s pid p tr hd hp htr]
    refine ⟨rfl, ?_, ?_, ?_, fun pid2 hne => ?_⟩
    · simp [ModelState.getPl, ModelState.setPl, lookup_update_self hp]
    · simp [ModelState.getPl, ModelState.setPl, lookup_update_self hp]
    · simp [ModelState.getPl, ModelState.setPl, lookup_update_self hp]
    · simp [ModelState.getPl, ModelState.setPl, lookup_update_ne hne]
  · exact undo_addPlaylist s pid2 hd hnp
  · exact undo_deletePlaylist s pid2 hd hps

/-- Claim C1 counterexample: `moveTrack(0, 0)` is a mutator call on a reachable
state, but one immediate `undo()` does not restore the pre-call title —
the early return logs nothing, so undo reverts the still-pending earlier
`setTitle` instead. -/
theorem undo_after_moveTrack_same_index_not_pre_call :
    (cexReached.getPl 0).title = "B" ∧
      ((History.undo (Playlist.moveTrack cexReached 0 0 0).1).1.getPl
          0).title = "A" ∧
      ((History.undo (Playlist.moveTrack cexReached 0 0 0).1).1.getPl
          0).title ≠ (cexReached.getPl 0).title := by decide

/-- Claim C7: `uniqueTitle` returns the numbered title with the smallest free
number in `[1, 1000)`, returns nothing precisely when every number in the
range is taken, and returns Playlist 2 on a set whose only playlist is
titled Playlist 1. -/
theorem uniqueTitle_smallest_free (s : ModelState) :
    (∀ t, PlaylistSet.uniqueTitle s = some t →
        ∃ n, 1 ≤ n ∧ n < 1000 ∧ t = "Playlist " ++ toString n ∧
          titleTaken s ("Playlist " ++ toString n) = false ∧
          ∀ m, 1 ≤ m → m < n →
            titleTaken s ("Playlist " ++ toString m) = true) ∧
      (PlaylistSet.uniqueTitle s = none ↔
        ∀ n, 1 ≤ n → n < 1000 →
          titleTaken s ("Playlist " ++ toString n) = true) ∧
      PlaylistSet.uniqueTitle playlistOneState = some "Playlist 2" := by
  refine ⟨fun t ht => ?_, ?_, by decide⟩
  · rw [PlaylistSet.uniqueTitle, Option.map_eq_some'] at ht
    obtain ⟨n, hfind, rfl⟩ := ht
    obtain ⟨hp, h1, h2, h3⟩ := find?_range'_min 999 1 hfind
    refine ⟨n, h1, by omega, rfl, by simpa using hp, fun m hm hm' => ?_⟩
    have := h3 m hm hm'
    simpa using this
  · rw [PlaylistSet.uniqueTitle, Option.map_eq_none', List.find?_eq_none]
    constructor
    · intro h n h1 h2
      have := h n (by rw [List.mem_range'_1]; omega)
      simpa using this
    · intro h n hn
      rw [List.mem_range'_1] at hn
      simpa using h n hn.1 (by omega)

/-- Claim C9: playing an empty playlist lands back in the idle session state with
no stream request and no playback start; stopping while idle leaves the
session state unchanged. -/
theorem player_idle_edge_cases (p : PlayerState) :
    (Player.play [] p).1 = { index := -1, sound := none, nextSound := none } ∧
      (Player.play [] p).2 = [PEv.setButton "Stop", PEv.setButton "Play"] ∧
      (p.index = -1 → p.sound = none → (Player.stop p).1 = p) := by
  obtain ⟨i0, s0, n0⟩ := p
  refine ⟨?_, ?_, fun hi hs => ?_⟩
  · simp [Player.play, Player.playNextTrack, Player.stop]
  · simp [Player.play, Player.playNextTrack, Player.stop]
  · simp only at hi hs
    subst hi
    subst hs
    simp [Player.stop]

/-- Claim C8: when the completion callback of the track at index `i` fires
(`playNextTrack`), the index becomes `i + 1`; past the end the player
stops; with a preloaded handle playback starts from it at once and the
preload slot is cleared; otherwise one fresh stream request is issued and
playback starts when its handle arrives. -/
theorem chained_advance (tracks : List Nat) (p : PlayerState) (i : Nat)
    (hi : p.index = (i : Int)) :
    (tracks.length ≤ i + 1 →
        (Player.playNextTrack tracks p).1.index = -1 ∧
          (Player.playNextTrack tracks p).1.sound = none) ∧
      (∀ h, i + 1 < tracks.length → p.nextSound = some h →
        (Player.playNextTrack tracks p).1 =
            { index := (i : Int) + 1, sound := some h, nextSound := none } ∧
          PEv.soundPlay h ∈ (Player.playNextTrack tracks p).2) ∧
      (∀ hlt : i + 1 < tracks.length, p.nextSound = none →
        (Player.playNextTrack tracks p).1 = { p with index := (i : Int) + 1 } ∧
          (Player.playNextTrack tracks p).2 =
            [PEv.streamRequest tracks[i + 1]] ∧
          ∀ h2,
            (Player.playSound tracks (Player.playNextTrack tracks p).1
                  h2).1.sound = some h2 ∧
              PEv.soundPlay h2 ∈
                (Player.playSound tracks (Player.playNextTrack tracks p).1
                    h2).2) := by
  obtain ⟨i0, s0, n0⟩ := p
  simp only at hi
  subst hi
  refine ⟨fun hend => ?_, fun h hin hpre => ?_, fun hlt hpre => ?_⟩
  · have hc : ((i : Int) + 1 ≥ (tracks.length : Int)) := by omega
    simp [Player.playNextTrack, hc, Player.stop]
  · simp only at hpre
    subst hpre
    have hc : ¬ ((i : Int) + 1 ≥ (tracks.length : Int)) := by omega
    simp only [Player.playNextTrack, hc, if_false, Player.playSound]
    refine ⟨?_, ?_⟩ <;> split <;> simp
  · simp only at hpre
    subst hpre
    have hc : ¬ ((i : Int) + 1 ≥ (tracks.length : Int)) := by omega
    have hg : tracks[i + 1]?.getD 0 = tracks[i + 1] := by
      rw [List.getElem?_eq_getElem hlt]
      rfl
    refine ⟨by simp [Player.playNextTrack, hc], ?_, fun h2 => ?_⟩
    · simp [Player.playNextTrack, hc, hg]
    · refine ⟨?_, ?_⟩ <;>
        simp only [Player.playNextTrack, hc, if_false, Player.playSound] <;>
        split <;> simp

/-- Claim C3: each mutator invokes its registered notification callback
synchronously inside the call, after its state mutation and before its
`History.log` call, except `onTracksChange`, which fires before the
track-sequence mutation of `addTrack`, `deleteTrack` and `moveTrack`. -/
theorem notify_after_mutation_before_log (s : ModelState) (pid : Nat) :
    (∀ t, (s.getPl pid).slots.onTitleChange = true →
        firesPost (Playlist.setTitle s pid t).2 Slot.onTitleChange) ∧
      (∀ d, (s.getPl pid).slots.onDescriptionChange = true →
        firesPost (Playlist.setDescription s pid d).2 Slot.onDescriptionChange) ∧
      (∀ tr, ((s.getPl pid).slots.onAddTrack = true →
          firesPost (Playlist.addTrack s pid tr).2 Slot.onAddTrack) ∧
        ((s.getPl pid).slots.onTracksChange = true →
          firesPre (Playlist.addTrack s pid tr).2 Slot.onTracksChange)) ∧
      (∀ tr, ((s.getPl pid).slots.onDeleteTrack = true →
          firesPost (Playlist.deleteTrack s pid tr).2 Slot.onDeleteTrack) ∧
        ((s.getPl pid).slots.onTracksChange = true →
          firesPre (Playlist.deleteTrack s pid tr).2 Slot.onTracksChange)) ∧
      (∀ f t, f ≠ t → ((s.getPl pid).slots.onMoveTrack = true →
          firesPost (Playlist.moveTrack s pid f t).2 Slot.onMoveTrack) ∧
        ((s.getPl pid).slots.onTracksChange = true →
          firesPre (Playlist.moveTrack s pid f t).2 Slot.onTracksChange)) ∧
      (s.onChange = true →
        firesPost (PlaylistSet.addPlaylist s pid).2 Slot.onChange) ∧
      (s.onChange = true →
        firesPost (PlaylistSet.deletePlaylist s pid).2 Slot.onChange) ∧
      (s.onDeletePlaylist = true →
        firesPost (PlaylistSet.deletePlaylist s pid).2 Slot.onDeletePlaylist) := by
  refine ⟨fun t h1 => ?_, fun d h1 => ?_, fun tr => ⟨fun h1 => ?_, fun h1 => ?_⟩,
    fun tr => ⟨fun h1 => ?_, fun h1 => ?_⟩,
    fun f t hne => ⟨fun h1 => ?_, fun h1 => ?_⟩, fun h1 => ?_,
    fun h1 => ?_, fun h1 => ?_⟩
  · simp [Playlist.setTitle, h1, firesPost, evIdx, logIdx, isHistLog] <;> decide
  · simp [Playlist.setDescription, h1, firesPost, evIdx, logIdx, isHistLog] <;> decide
  · cases h2 : (s.getPl pid).slots.onTracksChange <;>
      simp [Playlist.addTrack, h1, h2, firesPost, evIdx, logIdx, isHistLog,
        List.findIdx] <;> decide
  · cases h2 : (s.getPl pid).slots.onAddTrack <;>
      simp [Playlist.addTrack, h1, h2, firesPre, evIdx, logIdx, isHistLog,
        List.findIdx] <;> decide
  · cases h2 : (s.getPl pid).slots.onTracksChange <;>
      simp [Playlist.deleteTrack, h1, h2, firesPost, evIdx, logIdx, isHistLog,
        List.findIdx] <;> decide
  · cases h2 : (s.getPl pid).slots.onDeleteTrack <;>
      simp [Playlist.deleteTrack, h1, h2, firesPre, evIdx, logIdx, isHistLog,
        List.findIdx] <;> decide
  · cases h2 : (s.getPl pid).slots.onTracksChange <;>
      simp [Playlist.moveTrack, hne, h1, h2, firesPost, evIdx, logIdx,
        isHistLog, List.findIdx] <;> decide
  · cases h2 : (s.getPl pid).slots.onMoveTrack <;>
      simp [Playlist.moveTrack, hne, h1, h2, firesPre, evIdx, logIdx,
        isHistLog, List.findIdx] <;> decide
  · simp [PlaylistSet.addPlaylist, h1, firesPost, evIdx, logIdx, isHistLog] <;> decide
  · cases h2 : s.onDeletePlaylist <;>
      simp [PlaylistSet.deletePlaylist, h1, h2, firesPost, evIdx, logIdx,
        isHistLog, List.findIdx] <;> decide
  · cases h2 : s.onChange <;>
      simp [PlaylistSet.deletePlaylist, h1, h2, firesPost, evIdx, logIdx,
        isHistLog, List.findIdx] <;> decide

/-- Witness for the amended undo-restoration theorem at a concrete state. -/
theorem undo_restores_after_valid_mutator_witness :
    ObsEq (History.undo (Playlist.setTitle fourTrackState 0 "X").1).1
      fourTrackState :=
  (undo_restores_after_valid_mutator fourTrackState 0
    { title := "Mix", description := "", tracks := [10, 20, 30, 40]
      slots := noSlots } rfl rfl).1 "X"

/-- Witness for the stack-discipline theorem at the empty state. -/
theorem undo_stack_discipline_witness :
    History.undo emptyState = (emptyState, []) :=
  (undo_stack_discipline emptyState).1 rfl

/-- Witness for the notification-ordering theorem at a fully subscribed
state. -/
theorem notify_after_mutation_before_log_witness :
    firesPost (Playlist.setTitle allSlotsState 0 "X").2 Slot.onTitleChange :=
  (notify_after_mutation_before_log allSlotsState 0).1 "X" rfl

/-- Witness for the absent-delete theorem at a concrete state. -/
theorem delete_absent_removes_last_witness :
    ((Playlist.deleteTrack oneTrackState 0 9).1.getPl 0).tracks =
      ([5] : List Nat).dropLast :=
  (delete_absent_removes_last oneTrackState 0
    { title := "Solo", description := "", tracks := [5], slots := noSlots }
    9 rfl rfl (by decide)).1

/-- Witness for the moveTrack-semantics theorem at a concrete state. -/
theorem moveTrack_semantics_and_inverse_witness :
    ((Playlist.moveTrack fourTrackState 0 0 2).1.getPl 0).tracks =
      (([10, 20, 30, 40] : List Nat).eraseIdx 0).insertIdx 2
        (([10, 20, 30, 40] : List Nat)[0]) :=
  (moveTrack_semantics_and_inverse fourTrackState 0
    { title := "Mix", description := "", tracks := [10, 20, 30, 40]
      slots := noSlots } 0 2 rfl rfl (by decide) (by decide) (by decide)).1

/-- Witness for the delete-inverse theorem at a concrete state. -/
theorem delete_inverse_appends_at_end_witness :
    (Playlist.deleteTrack fourTrackState 0 20).1.records.head? =
      some ⟨"Delete Track", Op.addTrack 0 20⟩ :=
  (delete_inverse_appends_at_end fourTrackState 0
    { title := "Mix", description := "", tracks := [10, 20, 30, 40]
      slots := noSlots } 20 rfl rfl (by decide) (by decide)).1

/-- Witness for the uniqueTitle theorem at the scenario state. -/
theorem uniqueTitle_smallest_free_witness :
    ∃ n, 1 ≤ n ∧ n < 1000 ∧ ("Playlist 2" : String) = "Playlist " ++ toString n ∧
      titleTaken playlistOneState ("Playlist " ++ toString n) = false ∧
      ∀ m, 1 ≤ m → m < n →
        titleTaken playlistOneState ("Playlist " ++ toString m) = true :=
  (uniqueTitle_smallest_free playlistOneState).1 "Playlist 2" (by decide)

/-- Witness for the chained-advance theorem at a concrete playing session. -/
theorem chained_advance_witness :
    (Player.playNextTrack [7, 8] playingState).1 =
      { index := (0 : Int) + 1, sound := some 101, nextSound := none } :=
  ((chained_advance [7, 8] playingState 0 rfl).2.1 101 (by decide) rfl).1

/-- Witness for the player idle edge cases at the idle session. -/
theorem player_idle_edge_cases_witness :
    (Player.stop idleState).1 = idleState :=
  (player_idle_edge_cases idleState).2.2 rfl rfl
